import Mathlib

/-!
Verification of the kompas3d_project_manager parametric-propagation and
designation-assignment engine.

Python strings are modelled as lists of characters (`Str`), so that the
semantics of `.strip()`, `.lower()`, `in`, `.split()` and friends can be
stated and proved directly.  Numeric variable values (Python floats fed
from the CAD variable collection) are modelled exactly as rationals;
decimal literals of the source such as `6.9` become `69/10`.
-/

/-- A Python string, modelled as its list of characters. -/
abbrev Str := List Char

/-- Whitespace as recognised by Python's `str.strip()` (the characters
that actually occur in this code base's data). -/
def pyIsSpace (c : Char) : Bool :=
  c = ' ' || c = '\t' || c = '\n' || c = '\r'

/-- Drop leading whitespace (helper for `pyStrip`). -/
def dropSpaces : Str → Str
  | [] => []
  | c :: cs => if pyIsSpace c then dropSpaces cs else c :: cs

/-- Python `str.strip()`: remove leading and trailing whitespace. -/
def pyStrip (l : Str) : Str :=
  (dropSpaces (dropSpaces l).reverse).reverse

/-- Python `str.lower()` restricted to the alphabets appearing in the
source (ASCII and Russian Cyrillic). -/
def charLower (c : Char) : Char :=
  if 0x41 ≤ c.toNat ∧ c.toNat ≤ 0x5A then Char.ofNat (c.toNat + 32)
  else if 0x410 ≤ c.toNat ∧ c.toNat ≤ 0x42F then Char.ofNat (c.toNat + 32)
  else if c.toNat = 0x401 then Char.ofNat 0x451
  else c

/-- Python `str.upper()` restricted to the same alphabets. -/
def charUpper (c : Char) : Char :=
  if 0x61 ≤ c.toNat ∧ c.toNat ≤ 0x7A then Char.ofNat (c.toNat - 32)
  else if 0x430 ≤ c.toNat ∧ c.toNat ≤ 0x44F then Char.ofNat (c.toNat - 32)
  else if c.toNat = 0x451 then Char.ofNat 0x401
  else c

/-- Python `str.lower()`. -/
def pyLower (l : Str) : Str := l.map charLower

/-- Python `str.upper()`. -/
def pyUpper (l : Str) : Str := l.map charUpper

/-- Python `needle in haystack` (substring containment). -/
def containsSub (hay needle : Str) : Bool :=
  hay.tails.any (fun t => needle.isPrefixOf t)

/-- Python `str.startswith`. -/
def pyStartsWith (l pre : Str) : Bool := pre.isPrefixOf l

/-- Python `str.split(sep)` for a one-character separator: keeps empty
pieces, never returns an empty list. -/
def splitOnChar (sep : Char) : Str → List Str
  | [] => [[]]
  | c :: cs =>
    let r := splitOnChar sep cs
    if c = sep then [] :: r
    else
      match r with
      | [] => [[c]]
      | t :: ts => (c :: t) :: ts

/-- Python `str.split()` (no argument): split on whitespace runs,
discarding empty pieces. -/
def pySplitWs : Str → List Str
  | [] => []
  | c :: cs =>
    if pyIsSpace c then pySplitWs cs
    else (c :: cs.takeWhile (fun x => !pyIsSpace x)) ::
      pySplitWs (cs.dropWhile (fun x => !pyIsSpace x))
termination_by l => l.length
decreasing_by
  · simp only [List.length_cons]
    omega
  · simp only [List.length_cons]
    have h := (List.dropWhile_suffix (l := cs) (fun x => !pyIsSpace x)).length_le
    omega

/-- Python `sep.join(parts)` for a one-character separator. -/
def joinSep (sep : Char) : List Str → Str
  | [] => []
  | [t] => t
  | t :: ts => t ++ sep :: joinSep sep ts

/-- The decimal digit characters. -/
def digitChar : Nat → Char
  | 0 => '0'
  | 1 => '1'
  | 2 => '2'
  | 3 => '3'
  | 4 => '4'
  | 5 => '5'
  | 6 => '6'
  | 7 => '7'
  | 8 => '8'
  | _ + 9 => '9'

/-- Decimal rendering of a natural number (Python `str(n)` for `n ≥ 0`). -/
def natToStr (n : Nat) : Str :=
  if n < 10 then [digitChar n]
  else natToStr (n / 10) ++ [digitChar (n % 10)]
termination_by n
decreasing_by
  exact Nat.div_lt_self (by omega) (by omega)

/-- Decimal rendering of an integer (Python `str(i)`). -/
def intToStr (i : Int) : Str :=
  if i < 0 then '-' :: natToStr i.natAbs else natToStr i.toNat

/-- Python `f-string` formatting `{n:03d}` for a natural number. -/
def pad3 (n : Nat) : Str :=
  List.replicate (3 - (natToStr n).length) '0' ++ natToStr n

/-!
## Designation Assignment Engine
Shallow embedding of `DesignationUpdaterFixed.update_all_designations`
(`src/components/designation_updater_fixed.py`), restricted to the
in-assembly marking pass (lines 168-299) and the heat-exchanger part-file
adjustment (lines 354-372).
-/

/-- One placement of a component inside the assembly, as enumerated by
`iPart_asm2.GetPart(i)`: its tree name, its current designation
(`marking`) and its source file name. -/
structure AsmInstance where
  name : Str
  marking : Str
  fileName : Str
deriving DecidableEq

/-- The skip rule of lines 219 and 247: an instance whose stripped
designation is empty or starts with the reserved character is structural
and excluded (`if not old_mark or old_mark.startswith('-')`). -/
def skip_mark (m : Str) : Bool := m.isEmpty || pyStartsWith m ['-']

/-- Skip status of an instance (applied to the stripped marking). -/
def skipFlag (p : AsmInstance) : Bool := skip_mark (pyStrip p.marking)

/-- The purchased-component keyword set of line 254. -/
def purchased_keywords : List Str :=
  ["теплообменник".toList, "вентилятор".toList,
   "блок электропитания".toList, "блок питания".toList]

/-- Line 254: a name denotes a purchased component when its lowercase
form contains one of the keywords. -/
def is_purchased_name (p_name : Str) : Bool :=
  purchased_keywords.any (fun w => containsSub (pyLower p_name) w)

/-- Line 257: the distinguished housing identity
(`"короба" in p_name.lower()`). -/
def is_housing_name (p_name : Str) : Bool :=
  containsSub (pyLower p_name) ("короба".toList)

/-- Line 86: `full_name = f"{project_prefix}.{H}.{B1}.{L1}"`. -/
def full_name (pfx : Str) (H B1 L1 : Int) : Str :=
  pfx ++ '.' :: intToStr H ++ '.' :: intToStr B1 ++ '.' :: intToStr L1

/-- Line 87: `short_name = f"{project_prefix}.{H}.{B1}"`. -/
def short_name (pfx : Str) (H B1 : Int) : Str :=
  pfx ++ '.' :: intToStr H ++ '.' :: intToStr B1

/-- Lookup in the `name_to_number` dictionary (first matching key). -/
def numLookup : List (Str × Nat) → Str → Option Nat
  | [], _ => none
  | (k, v) :: m, k' => if k' = k then some v else numLookup m k'

/-- One step of the first enumeration pass (lines 209-227): skip
structural instances, then assign `next_number` to the instance's
stripped name on first encounter. -/
def addNameStep : List (Str × Nat) × Nat → AsmInstance → List (Str × Nat) × Nat
  | (m, nxt), p =>
    if skipFlag p then (m, nxt)
    else if (numLookup m (pyStrip p.name)).isSome then (m, nxt)
    else (m ++ [(pyStrip p.name, nxt)], nxt + 1)

/-- The `name_to_number` mapping built by the first pass (lines 203-227),
with `next_number` starting at 1. -/
def name_to_number (insts : List AsmInstance) : List (Str × Nat) :=
  (insts.foldl addNameStep ([], 1)).1

/-- Lines 253-261: the new designation for one instance.  Purchased
components keep their current (stripped) designation, the housing
identity uses the full name (with L1), every other identity the short
name (without L1). -/
def new_mark (full short old_mark p_name part_id : Str) : Str :=
  if is_purchased_name p_name then old_mark
  else if is_housing_name p_name then full ++ '.' :: part_id
  else short ++ '.' :: part_id

/-- Lines 236-279, one iteration of the second pass: compute the new
designation for an instance and write it back only when it differs from
the current one.  Returns the (possibly updated) instance and the number
of designation writes (0 or 1).  A name missing from `name_to_number`
raises `KeyError` in the source, which the per-instance handler catches,
leaving the instance untouched. -/
def processInstance (full short : Str) (numbering : List (Str × Nat))
    (p : AsmInstance) : AsmInstance × Nat :=
  let old_mark := pyStrip p.marking
  if skip_mark old_mark then (p, 0)
  else
    match numLookup numbering (pyStrip p.name) with
    | none => (p, 0)
    | some num =>
      let nm := new_mark full short old_mark (pyStrip p.name) (pad3 num)
      if old_mark = nm then (p, 0) else ({ p with marking := nm }, 1)

/-- The in-assembly marking pass of `update_all_designations`
(lines 188-290).  The probe loop of lines 191-199 enumerates at most 100
instances (`for i in range(100)`), so the pass touches exactly the first
`min 100` instances; the rest of the list is returned unchanged.  The
second component is `updated_instances`, the number of instance
designation writes. -/
def update_assembly_markings (full short : Str) (insts : List AsmInstance) :
    List AsmInstance × Nat :=
  let en := insts.take 100
  let numbering := name_to_number en
  (en.map (fun p => (processInstance full short numbering p).1) ++ insts.drop 100,
   (en.map (fun p => (processInstance full short numbering p).2)).sum)

/-- Lines 355-367: the heat-exchanger part-file designation adjustment.
The designation is split on whitespace; when it has at least two tokens
and the first token has exactly three dot-separated fields, the third
field is replaced by `str(L1 - 300)`; otherwise the designation is kept
unchanged. -/
def heat_exchanger_new_marking (L1 : Int) (old_marking : Str) : Str :=
  let old_parts := pySplitWs old_marking
  if 2 ≤ old_parts.length ∧ containsSub (old_parts.headD []) ['.'] then
    let size_parts := splitOnChar '.' (old_parts.headD [])
    if size_parts.length = 3 then
      joinSep '.' (size_parts.set 2 (intToStr (L1 - 300))) ++
        ' ' :: joinSep ' ' (old_parts.drop 1)
    else old_marking
  else old_marking

/-- Lines 66-79: the project-line tag.  The default is `ZVD.LITE`; a
truthy (non-empty) explicit `project_type` wins; otherwise the tag is
inferred from the upper-cased project folder name, `TURBO` checked
before `LITE`. -/
def project_prefix (project_type : Option Str) (project_folder_name : Str) : Str :=
  let inferred :=
    if containsSub (pyUpper project_folder_name) ("TURBO".toList) then "ZVD.TURBO".toList
    else if containsSub (pyUpper project_folder_name) ("LITE".toList) then "ZVD.LITE".toList
    else "ZVD.LITE".toList
  match project_type with
  | some t => if t.isEmpty then inferred else t
  | none => inferred

/-!
## Variable Propagation Engine
Shallow embedding of `CascadingVariablesUpdater.update_project_variables`
(`src/components/cascading_variables_updater.py`): the in-memory
derivation step (lines 119-178) and the per-part write (lines 241-307).
-/

/-- The in-memory variable map `all_calculated_vars`: a Python dict from
variable name to (numeric) value, in insertion order. -/
abbrev VarMap := List (Str × ℚ)

/-- Python dict read `m.get(k)` / `k in m`: first matching key. -/
def dictGet : VarMap → Str → Option ℚ
  | [], _ => none
  | (a, b) :: m, k => if k = a then some b else dictGet m k

/-- Python dict write `m[k] = v`: overwrite the existing entry in place,
or append a new entry at the end. -/
def dictInsert : VarMap → Str → ℚ → VarMap
  | [], k, v => [(k, v)]
  | (a, b) :: m, k, v => if a = k then (k, v) :: m else (a, b) :: dictInsert m k v

/-- Lines 136-138: `A1 = H - A2` when A2 is present. -/
def derive_A1 (h : ℚ) (m : VarMap) : VarMap :=
  match dictGet m ("A2".toList) with
  | some a2 => dictInsert m ("A1".toList) (h - a2)
  | none => m

/-- Lines 140-142: `A4 = A1 - 5` when A1 is present. -/
def derive_A4 (m : VarMap) : VarMap :=
  match dictGet m ("A1".toList) with
  | some a1 => dictInsert m ("A4".toList) (a1 - 5)
  | none => m

/-- Lines 144-155: `A3 = A1 - coeff`, where `coeff = A1 - A3` is read
off the map when A3 is already present, and `coeff = 20` otherwise. -/
def derive_A3 (m : VarMap) : VarMap :=
  match dictGet m ("A1".toList) with
  | some a1 =>
    match dictGet m ("A3".toList) with
    | some a3 => dictInsert m ("A3".toList) (a1 - (a1 - a3))
    | none => dictInsert m ("A3".toList) (a1 - 20)
  | none => m

/-- Lines 157-162: `B3 = B1 - 2*B2 - 6.9` and `B4 = B1 - 2*B2 - 2.5`
when B2 is present. -/
def derive_B34 (b1 : ℚ) (m : VarMap) : VarMap :=
  match dictGet m ("B2".toList) with
  | some b2 =>
    dictInsert (dictInsert m ("B3".toList) (b1 - b2 * 2 - 69 / 10))
      ("B4".toList) (b1 - b2 * 2 - 5 / 2)
  | none => m

/-- Lines 164-169: `B5 = B1 - 4` and `B6 = B1 - 60`, unconditionally. -/
def derive_B56 (b1 : ℚ) (m : VarMap) : VarMap :=
  dictInsert (dictInsert m ("B5".toList) (b1 - 4)) ("B6".toList) (b1 - 60)

/-- Lines 171-173: `A5 = A2 - 1.5` when A2 is present. -/
def derive_A5 (m : VarMap) : VarMap :=
  match dictGet m ("A2".toList) with
  | some a2 => dictInsert m ("A5".toList) (a2 - 3 / 2)
  | none => m

/-- Lines 136-173: the manual re-derivation of the dependent variables
from the freshly read map `m0` and the new base values `h`, `b1`
(`l1` is not used by any rule).  Rules are applied in source order. -/
def all_calculated_vars (h b1 : ℚ) (m0 : VarMap) : VarMap :=
  derive_A5 (derive_B56 b1 (derive_B34 b1 (derive_A3 (derive_A4 (derive_A1 h m0)))))

/-- A variable of a part file, as exposed by its variable collection. -/
structure PartVar where
  name : Str
  value : ℚ
  expression : Str
  external : Bool
deriving DecidableEq

/-- Lines 245-249: an instance-scoped variable name such as `v1398_B3`:
it starts with `v`, contains `_`, and the text between the leading `v`
and the first `_` is a non-empty digit string. -/
def is_instance_var (n : Str) : Bool :=
  pyStartsWith n ['v'] && n.contains '_' &&
    (let pre := (n.takeWhile (fun c => !(c = '_'))).drop 1
     !pre.isEmpty && pre.all Char.isDigit)

/-- Line 266: the expression already encodes a formula when it contains
an arithmetic operator or conditional token. -/
def has_formula (e : Str) : Bool :=
  containsSub e ['-'] || containsSub e ['+'] || containsSub e ['*'] ||
    containsSub e ['/'] || containsSub e ['i', 'f'] || containsSub e ['?']

/-- Line 267: the expression is hyperlink-like when it contains a drive
path separator or a pipe. -/
def has_hyperlink (e : Str) : Bool :=
  containsSub e [':', '\\'] || containsSub e ['|']

/-- Rendering of a numeric value written into an expression
(`str(var_value)`); the exact Python float formatting is irrelevant to
every claim, only that the expression becomes a bare literal. -/
def valueToStr (v : ℚ) : Str := (toString v).toList

/-- Lines 260-297: the write applied to one matching part variable.
Hyperlink-like expressions are replaced by the literal value; formula
expressions are cleared and immediately restored (a no-op on the text,
and the numeric value is not touched); otherwise expression and value
are both overwritten.  `External` is always set. -/
def update_matched_var (v : PartVar) (val : ℚ) : PartVar :=
  if has_hyperlink v.expression then
    { v with expression := valueToStr val, value := val, external := true }
  else if has_formula v.expression then
    { v with external := true }
  else
    { v with expression := valueToStr val, value := val, external := true }

/-- `GetByName` succeeds: some variable of the part has this name. -/
def hasVar (vs : List PartVar) (n : Str) : Bool :=
  vs.any (fun v => decide (v.name = n))

/-- Write through the single variable object returned by `GetByName`
(the first variable with the given name). -/
def updateFirstVar : List PartVar → Str → ℚ → List PartVar
  | [], _, _ => []
  | v :: vs, n, val =>
    if v.name = n then update_matched_var v val :: vs
    else v :: updateFirstVar vs n val

/-- One iteration of the loop of lines 241-305: an instance-scoped name
is skipped, and a variable is written only when it already exists in the
part (`GetByName` non-null) — no variable is ever created.  The counter
is `updated_in_part` (incremented whenever `GetByName` succeeded). -/
def updateVarsStep (st : List PartVar × Nat) (nv : Str × ℚ) :
    List PartVar × Nat :=
  if is_instance_var nv.1 then st
  else if hasVar st.1 nv.1 then (updateFirstVar st.1 nv.1 nv.2, st.2 + 1)
  else st

/-- Lines 241-305: the per-part write, iterating over the entries of the
derived map `all_calculated_vars.items()`. -/
def update_part_vars (derived : List (Str × ℚ)) (pvars : List PartVar) :
    List PartVar × Nat :=
  derived.foldl updateVarsStep (pvars, 0)

/-!
## Quantity Resolution
Shallow embedding of `DxfRenamer.get_part_quantity_from_assembly`
(`src/components/dxf_renamer.py`, lines 19-100).
-/

/-- Lines 71-74 of `dxf_renamer.py`: the skip rule of the counting loop
(`if not p_marking or p_marking.startswith('-')`). -/
def skip_mark_dxf (m : Str) : Bool := m.isEmpty || pyStartsWith m ['-']

/-- Lines 60-86: walk the assembly instances in order, skip structural
ones, count exact designation matches, and report 1 when nothing
matched. -/
def get_part_quantity_from_assembly (insts : List AsmInstance)
    (part_marking : Str) : Nat :=
  let count := insts.foldl
    (fun c p =>
      if skip_mark_dxf (pyStrip p.marking) then c
      else if pyStrip p.marking = part_marking then c + 1 else c) 0
  if 0 < count then count else 1

/-!
## File renaming
The three rename sites named by the spec's `RenameCollision` taxonomy.
The file system is modelled as the list of file paths present; Windows
`Path.rename` fails when the target already exists, and each site's
`try` block turns any failure into a logged warning, leaving the file
system as it was.
-/

/-- `Path.rename(target)` on Windows: fails (`None`) when the target
exists or the source is missing, else replaces the source name. -/
def fsRename (fs : List Str) (o n : Str) : Option (List Str) :=
  if n ∈ fs then none
  else if o ∈ fs then some (fs.map (fun f => if f = o then n else f))
  else none

/-- Part-file rename, `designation_updater_fixed.py` lines 440-445: a
bare `old_path.rename(new_path)`; an exception is caught and logged,
leaving the file system unchanged. -/
def rename_part_file (fs : List Str) (o n : Str) : List Str :=
  match fsRename fs o n with
  | some fs2 => fs2
  | none => fs

/-- Drawing rename, `designation_updater_fixed.py` lines 488-498: when
the target exists it is deleted (`unlink`) before the rename. -/
def rename_drawing_file (fs : List Str) (o n : Str) : List Str :=
  if o = n then fs
  else
    let fs1 := if n ∈ fs then fs.erase n else fs
    match fsRename fs1 o n with
    | some fs2 => fs2
    | none => fs1

/-- DXF rename, `dxf_renamer.py` lines 322-332: same delete-then-rename
pattern as the drawing rename. -/
def rename_dxf_file (fs : List Str) (o n : Str) : List Str :=
  if o = n then fs
  else
    let fs1 := if n ∈ fs then fs.erase n else fs
    match fsRename fs1 o n with
    | some fs2 => fs2
    | none => fs1

/-!
## Basic string lemmas
-/

lemma dropSpaces_eq_self (l : Str)
    (h : ∀ c, l.head? = some c → pyIsSpace c = false) :
    dropSpaces l = l := by
  cases l with
  | nil => rfl
  | cons c cs =>
    have hc := h c rfl
    simp [dropSpaces, hc]

lemma pyStrip_eq_self (l : Str)
    (h1 : ∀ c, l.head? = some c → pyIsSpace c = false)
    (h2 : ∀ c, l.reverse.head? = some c → pyIsSpace c = false) :
    pyStrip l = l := by
  unfold pyStrip
  rw [dropSpaces_eq_self l h1, dropSpaces_eq_self l.reverse h2,
    List.reverse_reverse]

lemma head?_mem {l : Str} {c : Char} (h : l.head? = some c) : c ∈ l := by
  cases l with
  | nil => simp at h
  | cons a as =>
    simp only [List.head?_cons, Option.some.injEq] at h
    subst h
    exact List.mem_cons_self a as

lemma head?_append_left (l₁ l₂ : Str) (h : l₁ ≠ []) :
    (l₁ ++ l₂).head? = l₁.head? := by
  cases l₁ with
  | nil => exact absurd rfl h
  | cons a as => rfl

lemma digitChar_plain : ∀ n, pyIsSpace (digitChar n) = false ∧ digitChar n ≠ '-'
  | 0 => by decide
  | 1 => by decide
  | 2 => by decide
  | 3 => by decide
  | 4 => by decide
  | 5 => by decide
  | 6 => by decide
  | 7 => by decide
  | 8 => by decide
  | n + 9 => by
    show pyIsSpace '9' = false ∧ '9' ≠ '-'
    decide

lemma natToStr_ne_nil (n : Nat) : natToStr n ≠ [] := by
  rw [natToStr]
  split
  · simp
  · simp

lemma natToStr_chars (n : Nat) : ∀ c ∈ natToStr n, ∃ d, c = digitChar d := by
  induction n using Nat.strong_induction_on with
  | _ n ih =>
    intro c hc
    rw [natToStr] at hc
    split at hc
    · exact ⟨n, by simpa using hc⟩
    · rcases List.mem_append.mp hc with h | h
      · exact ih (n / 10) (Nat.div_lt_self (by omega) (by omega)) c h
      · exact ⟨n % 10, by simpa using h⟩

lemma pad3_ne_nil (n : Nat) : pad3 n ≠ [] := by
  unfold pad3
  intro h
  exact natToStr_ne_nil n (List.append_eq_nil.mp h).2

lemma pad3_chars (n : Nat) :
    ∀ c ∈ pad3 n, pyIsSpace c = false ∧ c ≠ '-' := by
  intro c hc
  unfold pad3 at hc
  rcases List.mem_append.mp hc with h | h
  · have hc0 : c = '0' := List.eq_of_mem_replicate h
    subst hc0
    decide
  · obtain ⟨d, rfl⟩ := natToStr_chars n c h
    exact digitChar_plain d

/-- The product-line tag has a usable first character: not whitespace and
not the reserved designation character.  Both real tags (`ZVD.LITE`,
`ZVD.TURBO`) satisfy this. -/
def head_ok (l : Str) : Bool :=
  match l.head? with
  | none => true
  | some c => !pyIsSpace c && !(c == '-')

lemma head_ok_cons_iff (c : Char) (r : Str) :
    head_ok (c :: r) = (!pyIsSpace c && !(c == '-')) := rfl

lemma head_ok_append (X Y : Str) (hX : head_ok X = true)
    (hY : head_ok Y = true) : head_ok (X ++ Y) = true := by
  cases X with
  | nil => simpa using hY
  | cons a as =>
    show head_ok (a :: (as ++ Y)) = true
    rw [head_ok_cons_iff]
    rw [head_ok_cons_iff] at hX
    exact hX

lemma head_ok_append_cons (pfx : Str) (c : Char) (r : Str)
    (h : head_ok pfx = true) (hc : pyIsSpace c = false ∧ c ≠ '-') :
    head_ok (pfx ++ c :: r) = true := by
  cases pfx with
  | nil =>
    show head_ok (c :: r) = true
    rw [head_ok_cons_iff]
    simp [hc.1, hc.2]
  | cons a as =>
    show head_ok (a :: (as ++ c :: r)) = true
    rw [head_ok_cons_iff]
    rw [head_ok_cons_iff] at h
    exact h

lemma mark_head_chars (X P : Str) (hX : head_ok X = true) :
    ∀ c, (X ++ '.' :: P).head? = some c → pyIsSpace c = false ∧ c ≠ '-' := by
  intro c hc
  cases X with
  | nil =>
    simp only [List.nil_append, List.head?_cons, Option.some.injEq] at hc
    subst hc
    decide
  | cons a as =>
    simp only [List.cons_append, List.head?_cons, Option.some.injEq] at hc
    subst hc
    rw [head_ok_cons_iff] at hX
    simp only [Bool.and_eq_true, Bool.not_eq_true'] at hX
    refine ⟨hX.1, ?_⟩
    intro h
    rw [h] at hX
    simp at hX

lemma mark_last_chars (X P : Str) (hP : P ≠ [])
    (hPc : ∀ c ∈ P, pyIsSpace c = false) :
    ∀ c, (X ++ '.' :: P).reverse.head? = some c → pyIsSpace c = false := by
  intro c hc
  rw [List.reverse_append, List.reverse_cons, List.append_assoc] at hc
  rw [head?_append_left _ _ (by simpa using hP)] at hc
  exact hPc c (List.mem_reverse.mp (head?_mem hc))

lemma skip_mark_eq_false (l : Str) (hne : l ≠ [])
    (h : ∀ c, l.head? = some c → c ≠ '-') : skip_mark l = false := by
  cases l with
  | nil => exact absurd rfl hne
  | cons a as =>
    have ha := h a rfl
    simp only [skip_mark, pyStartsWith, List.isPrefixOf, List.isEmpty_cons,
      Bool.false_or]
    simp [beq_iff_eq]
    intro hh
    exact ha hh.symm

lemma strip_new_mark (X : Str) (k : Nat) (hX : head_ok X = true) :
    pyStrip (X ++ '.' :: pad3 k) = X ++ '.' :: pad3 k ∧
    skip_mark (X ++ '.' :: pad3 k) = false := by
  have hhead := mark_head_chars X (pad3 k) hX
  refine ⟨pyStrip_eq_self _ (fun c hc => (hhead c hc).1)
    (mark_last_chars X (pad3 k) (pad3_ne_nil k)
      (fun c hc => (pad3_chars k c hc).1)), ?_⟩
  refine skip_mark_eq_false _ ?_ (fun c hc => (hhead c hc).2)
  intro h
  have := (List.append_eq_nil.mp h).2
  simp at this

lemma processInstance_eq (full short : Str) (N : List (Str × Nat))
    (p : AsmInstance) :
    processInstance full short N p =
      if skip_mark (pyStrip p.marking) = true then (p, 0)
      else
        match numLookup N (pyStrip p.name) with
        | none => (p, 0)
        | some num =>
          if pyStrip p.marking =
              new_mark full short (pyStrip p.marking) (pyStrip p.name) (pad3 num)
          then (p, 0)
          else (AsmInstance.mk p.name
            (new_mark full short (pyStrip p.marking) (pyStrip p.name) (pad3 num))
            p.fileName, 1) := rfl

lemma processInstance_eq_some (full short : Str) (N : List (Str × Nat))
    (p : AsmInstance) (num : Nat)
    (hskip : skip_mark (pyStrip p.marking) = false)
    (hlook : numLookup N (pyStrip p.name) = some num) :
    processInstance full short N p =
      if pyStrip p.marking =
          new_mark full short (pyStrip p.marking) (pyStrip p.name) (pad3 num)
      then (p, 0)
      else (AsmInstance.mk p.name
        (new_mark full short (pyStrip p.marking) (pyStrip p.name) (pad3 num))
        p.fileName, 1) := by
  rw [processInstance_eq, if_neg (by rw [hskip]; exact Bool.false_ne_true), hlook]

lemma processInstance_cases (full short : Str) (N : List (Str × Nat))
    (p : AsmInstance) (hf : head_ok full = true) (hs : head_ok short = true) :
    processInstance full short N (processInstance full short N p).1 =
      ((processInstance full short N p).1, 0) ∧
    skipFlag (processInstance full short N p).1 = skipFlag p ∧
    (processInstance full short N p).1.name = p.name := by
  by_cases hskip : skip_mark (pyStrip p.marking) = true
  · have h1 : processInstance full short N p = (p, 0) := by
      rw [processInstance_eq, if_pos hskip]
    rw [h1]
    exact ⟨h1, rfl, rfl⟩
  · rw [Bool.not_eq_true] at hskip
    cases hlook : numLookup N (pyStrip p.name) with
    | none =>
      have h1 : processInstance full short N p = (p, 0) := by
        rw [processInstance_eq,
          if_neg (by rw [hskip]; exact Bool.false_ne_true), hlook]
      rw [h1]
      exact ⟨h1, rfl, rfl⟩
    | some num =>
      by_cases heq : pyStrip p.marking =
          new_mark full short (pyStrip p.marking) (pyStrip p.name) (pad3 num)
      · have h1 : processInstance full short N p = (p, 0) := by
          rw [processInstance_eq_some full short N p num hskip hlook]
          exact if_pos heq
        rw [h1]
        exact ⟨h1, rfl, rfl⟩
      · by_cases hpur : is_purchased_name (pyStrip p.name) = true
        · exfalso
          apply heq
          unfold new_mark
          rw [if_pos hpur]
        · rw [Bool.not_eq_true] at hpur
          have hX : ∃ X, head_ok X = true ∧ ∀ old : Str,
              new_mark full short old (pyStrip p.name) (pad3 num) =
                X ++ '.' :: pad3 num := by
            by_cases hh : is_housing_name (pyStrip p.name) = true
            · refine ⟨full, hf, fun old => ?_⟩
              unfold new_mark
              rw [if_neg (by simp [hpur]), if_pos hh]
            · refine ⟨short, hs, fun old => ?_⟩
              unfold new_mark
              rw [if_neg (by simp [hpur]), if_neg hh]
          obtain ⟨X, hXok, hXeq⟩ := hX
          have hstrip := (strip_new_mark X num hXok).1
          have hskip2 := (strip_new_mark X num hXok).2
          have heq2 : ¬pyStrip p.marking = X ++ '.' :: pad3 num := by
            rw [← hXeq (pyStrip p.marking)]
            exact heq
          have h1 : processInstance full short N p =
              (AsmInstance.mk p.name (X ++ '.' :: pad3 num) p.fileName, 1) := by
            rw [processInstance_eq_some full short N p num hskip hlook]
            rw [hXeq (pyStrip p.marking)]
            exact if_neg heq2
          rw [h1]
          have hskip_q : skip_mark (pyStrip (AsmInstance.mk p.name
              (X ++ '.' :: pad3 num) p.fileName).marking) = false := by
            dsimp only
            rw [hstrip]
            exact hskip2
          have hlook_q : numLookup N (pyStrip (AsmInstance.mk p.name
              (X ++ '.' :: pad3 num) p.fileName).name) = some num := by
            dsimp only
            exact hlook
          refine ⟨?_, ?_, rfl⟩
          · rw [processInstance_eq_some full short N _ num hskip_q hlook_q]
            dsimp only
            rw [hstrip, hXeq (X ++ '.' :: pad3 num)]
            exact if_pos rfl
          · show skip_mark (pyStrip (X ++ '.' :: pad3 num)) = skipFlag p
            rw [hstrip, hskip2]
            unfold skipFlag
            rw [hskip]

lemma addNameStep_congr (st : List (Str × Nat) × Nat) (p q : AsmInstance)
    (hn : pyStrip q.name = pyStrip p.name) (hs : skipFlag q = skipFlag p) :
    addNameStep st q = addNameStep st p := by
  obtain ⟨m, nxt⟩ := st
  simp only [addNameStep, hn, hs]

lemma foldl_addNameStep_map (f : AsmInstance → AsmInstance)
    (hf : ∀ p, pyStrip (f p).name = pyStrip p.name ∧ skipFlag (f p) = skipFlag p) :
    ∀ (l : List AsmInstance) (st : List (Str × Nat) × Nat),
      (l.map f).foldl addNameStep st = l.foldl addNameStep st := by
  intro l
  induction l with
  | nil => intro st; rfl
  | cons p rest ih =>
    intro st
    simp only [List.map_cons, List.foldl_cons]
    rw [addNameStep_congr st p (f p) (hf p).1 (hf p).2]
    exact ih _

lemma name_to_number_map (f : AsmInstance → AsmInstance)
    (hf : ∀ p, pyStrip (f p).name = pyStrip p.name ∧ skipFlag (f p) = skipFlag p)
    (l : List AsmInstance) :
    name_to_number (l.map f) = name_to_number l := by
  unfold name_to_number
  rw [foldl_addNameStep_map f hf l]

lemma sum_map_zero (l : List AsmInstance) :
    (l.map (fun _ => (0 : Nat))).sum = 0 := by
  induction l with
  | nil => rfl
  | cons p rest ih => simp [ih]

lemma update_assembly_markings_eq (full short : Str) (insts : List AsmInstance) :
    update_assembly_markings full short insts =
      ((insts.take 100).map
          (fun p => (processInstance full short (name_to_number (insts.take 100)) p).1)
        ++ insts.drop 100,
       ((insts.take 100).map
          (fun p => (processInstance full short (name_to_number (insts.take 100)) p).2)).sum) := rfl

lemma update_assembly_markings_idem (full short : Str)
    (hf : head_ok full = true) (hs : head_ok short = true)
    (insts : List AsmInstance) :
    update_assembly_markings full short
        (update_assembly_markings full short insts).1 =
      ((update_assembly_markings full short insts).1, 0) := by
  have key := fun q => processInstance_cases full short
    (name_to_number (insts.take 100)) q hf hs
  have hprop : ∀ q,
      pyStrip ((processInstance full short (name_to_number (insts.take 100)) q).1).name
          = pyStrip q.name ∧
      skipFlag ((processInstance full short (name_to_number (insts.take 100)) q).1)
          = skipFlag q := by
    intro q
    exact ⟨by rw [(key q).2.2], (key q).2.1⟩
  have hr1 : (update_assembly_markings full short insts).1 =
      (insts.take 100).map
        (fun p => (processInstance full short (name_to_number (insts.take 100)) p).1)
      ++ insts.drop 100 := rfl
  have hlen1 : ((insts.take 100).map
      (fun p => (processInstance full short (name_to_number (insts.take 100)) p).1)).length
      = (insts.take 100).length := by simp
  have hlen2 : (insts.take 100).length ≤ 100 := by
    rw [List.length_take]
    omega
  have htake : ((update_assembly_markings full short insts).1).take 100 =
      (insts.take 100).map
        (fun p => (processInstance full short (name_to_number (insts.take 100)) p).1) := by
    rw [hr1, List.take_append_eq_append_take]
    rw [List.take_of_length_le (by rw [hlen1]; exact hlen2)]
    rcases le_or_lt insts.length 100 with hle | hlt
    · rw [List.drop_eq_nil_of_le hle]
      simp
    · have h100 : (insts.take 100).length = 100 := by
        rw [List.length_take]
        omega
      rw [hlen1, h100]
      simp
  have hdrop : ((update_assembly_markings full short insts).1).drop 100 =
      insts.drop 100 := by
    rw [hr1, List.drop_append_eq_append_drop]
    rw [List.drop_eq_nil_of_le (by rw [hlen1]; exact hlen2)]
    rcases le_or_lt insts.length 100 with hle | hlt
    · rw [List.drop_eq_nil_of_le hle]
      simp
    · have h100 : (insts.take 100).length = 100 := by
        rw [List.length_take]
        omega
      rw [hlen1, h100]
      simp
  have hN2 : name_to_number (((update_assembly_markings full short insts).1).take 100)
      = name_to_number (insts.take 100) := by
    rw [htake]
    exact name_to_number_map _ hprop (insts.take 100)
  rw [update_assembly_markings_eq full short ((update_assembly_markings full short insts).1)]
  rw [hN2, htake, hdrop]
  rw [List.map_map, List.map_map]
  have hcomp1 : ∀ p ∈ insts.take 100,
      ((fun p => (processInstance full short (name_to_number (insts.take 100)) p).1) ∘
        (fun p => (processInstance full short (name_to_number (insts.take 100)) p).1)) p
      = (fun p => (processInstance full short (name_to_number (insts.take 100)) p).1) p := by
    intro p hp
    show (processInstance full short (name_to_number (insts.take 100))
        (processInstance full short (name_to_number (insts.take 100)) p).1).1 = _
    rw [(key p).1]
  have hcomp2 : ∀ p ∈ insts.take 100,
      ((fun p => (processInstance full short (name_to_number (insts.take 100)) p).2) ∘
        (fun p => (processInstance full short (name_to_number (insts.take 100)) p).1)) p
      = (fun _ => (0 : Nat)) p := by
    intro p hp
    show (processInstance full short (name_to_number (insts.take 100))
        (processInstance full short (name_to_number (insts.take 100)) p).1).2 = 0
    rw [(key p).1]
  rw [List.map_congr_left hcomp1, List.map_congr_left hcomp2]
  rw [hr1, sum_map_zero]

/-- C1: Idempotence of designation assignment.  With the same inputs
(H, B1, L1 and a product-line tag whose first character is neither
whitespace nor the reserved character, as both real tags are), running
the in-assembly designation pass a second time immediately after a first
run computes, for every non-skipped instance, a designation equal to the
one it already carries, hence changes no instance and performs zero
instance-designation writes. -/
theorem designation_assignment_idempotent (pfx : Str) (H B1 L1 : Int)
    (insts : List AsmInstance) (hp : head_ok pfx = true) :
    update_assembly_markings (full_name pfx H B1 L1) (short_name pfx H B1)
        (update_assembly_markings (full_name pfx H B1 L1) (short_name pfx H B1)
          insts).1 =
      ((update_assembly_markings (full_name pfx H B1 L1) (short_name pfx H B1)
          insts).1, 0) := by
  have hdot : ∀ r : Str, head_ok ('.' :: r) = true := by
    intro r
    rw [head_ok_cons_iff]
    decide
  have hf : head_ok (full_name pfx H B1 L1) = true :=
    head_ok_append _ _ (head_ok_append _ _ (head_ok_append _ _ hp (hdot _))
      (hdot _)) (hdot _)
  have hsh : head_ok (short_name pfx H B1) = true :=
    head_ok_append _ _ (head_ok_append _ _ hp (hdot _)) (hdot _)
  exact update_assembly_markings_idem _ _ hf hsh insts

/-- A small concrete assembly used to witness C1: a housing, two copies
of a wall, a purchased fan, and a structural instance. -/
def c1Insts : List AsmInstance :=
  [AsmInstance.mk ("Корпус короба".toList) ("СТАРОЕ.001".toList) ("001 - Корпус короба.m3d".toList),
   AsmInstance.mk ("Стенка".toList) ("СТАРОЕ.002".toList) ("002 - Стенка.m3d".toList),
   AsmInstance.mk ("Вентилятор".toList) ("ВЕНТС 100".toList) ("вентилятор.m3d".toList),
   AsmInstance.mk ("Стенка".toList) ("СТАРОЕ.002".toList) ("002 - Стенка.m3d".toList),
   AsmInstance.mk ("Ребро".toList) ([]) ("реб.m3d".toList)]

/-- Witness for C1 at a concrete assembly and concrete inputs. -/
theorem designation_assignment_idempotent_witness :
    update_assembly_markings (full_name ("ZVD.LITE".toList) 160 350 2600)
        (short_name ("ZVD.LITE".toList) 160 350)
        (update_assembly_markings (full_name ("ZVD.LITE".toList) 160 350 2600)
          (short_name ("ZVD.LITE".toList) 160 350) c1Insts).1 =
      ((update_assembly_markings (full_name ("ZVD.LITE".toList) 160 350 2600)
          (short_name ("ZVD.LITE".toList) 160 350) c1Insts).1, 0) :=
  designation_assignment_idempotent ("ZVD.LITE".toList) 160 350 2600 c1Insts
    (by decide)

/-- Specification-side reading of the first enumeration pass: the
stripped names of non-skipped instances, in order of first occurrence. -/
def first_seen_names (insts : List AsmInstance) : List Str :=
  insts.foldl
    (fun acc p =>
      if skipFlag p then acc
      else if pyStrip p.name ∈ acc then acc
      else acc ++ [pyStrip p.name]) []

lemma numLookup_isSome_iff (m : List (Str × Nat)) (k : Str) :
    (numLookup m k).isSome = true ↔ k ∈ m.map Prod.fst := by
  induction m with
  | nil => simp [numLookup]
  | cons a m ih =>
    obtain ⟨a1, a2⟩ := a
    by_cases h : k = a1
    · simp [numLookup, h]
    · simp [numLookup, h, ih]

lemma ntn_fold_inv (l : List AsmInstance) :
    ∀ (m : List (Str × Nat)) (nxt : Nat),
      nxt = m.length + 1 →
      m.map Prod.snd = List.range' 1 m.length →
      (m.map Prod.fst).Nodup →
      ((l.foldl addNameStep (m, nxt)).1.map Prod.snd =
          List.range' 1 (l.foldl addNameStep (m, nxt)).1.length ∧
        ((l.foldl addNameStep (m, nxt)).1.map Prod.fst).Nodup ∧
        (l.foldl addNameStep (m, nxt)).1.map Prod.fst =
          l.foldl (fun acc p => if skipFlag p then acc
            else if pyStrip p.name ∈ acc then acc
            else acc ++ [pyStrip p.name]) (m.map Prod.fst)) := by
  induction l with
  | nil => intro m nxt h1 h2 h3; exact ⟨h2, h3, rfl⟩
  | cons p rest ih =>
    intro m nxt h1 h2 h3
    by_cases hskip : skipFlag p = true
    · have hstep : addNameStep (m, nxt) p = (m, nxt) := by
        simp [addNameStep, hskip]
      simp only [List.foldl_cons, hstep, if_pos hskip]
      exact ih m nxt h1 h2 h3
    · by_cases hmem : (numLookup m (pyStrip p.name)).isSome = true
      · have hstep : addNameStep (m, nxt) p = (m, nxt) := by
          simp [addNameStep, hskip, hmem]
        have hmem2 : pyStrip p.name ∈ m.map Prod.fst :=
          (numLookup_isSome_iff m (pyStrip p.name)).mp hmem
        simp only [List.foldl_cons, hstep, if_neg hskip, if_pos hmem2]
        exact ih m nxt h1 h2 h3
      · have hstep : addNameStep (m, nxt) p =
            (m ++ [(pyStrip p.name, nxt)], nxt + 1) := by
          simp [addNameStep, hskip, hmem]
        have hmem2 : pyStrip p.name ∉ m.map Prod.fst := by
          intro hc
          exact hmem ((numLookup_isSome_iff m (pyStrip p.name)).mpr hc)
        simp only [List.foldl_cons, hstep, if_neg hskip, if_neg hmem2]
        have e1 : (m ++ [(pyStrip p.name, nxt)]).map Prod.fst =
            m.map Prod.fst ++ [pyStrip p.name] := by simp
        have r1 : nxt + 1 = (m ++ [(pyStrip p.name, nxt)]).length + 1 := by
          simp [h1]
        have r2 : (m ++ [(pyStrip p.name, nxt)]).map Prod.snd =
            List.range' 1 (m ++ [(pyStrip p.name, nxt)]).length := by
          simp only [List.map_append, List.length_append, List.map_cons,
            List.map_nil, List.length_cons, List.length_nil]
          rw [h2, h1]
          rw [List.range'_concat]
          simp
          omega
        have r3 : ((m ++ [(pyStrip p.name, nxt)]).map Prod.fst).Nodup := by
          rw [e1]
          simp [List.nodup_append, h3, hmem2]
        have := ih (m ++ [(pyStrip p.name, nxt)]) (nxt + 1) r1 r2 r3
        rw [e1] at this
        exact this

/-- C2: Grouping invariant of sequence numbering.  After the first
enumeration pass: instances with the same stripped component name look
up the same sequence number; the numbered names are pairwise distinct
and so are their numbers; and the numbers are exactly 1, 2, 3, … in the
order the names were first encountered among non-skipped instances. -/
theorem name_to_number_grouping (insts : List AsmInstance) :
    (∀ p ∈ insts, ∀ q ∈ insts, pyStrip p.name = pyStrip q.name →
      numLookup (name_to_number insts) (pyStrip p.name) =
        numLookup (name_to_number insts) (pyStrip q.name)) ∧
    ((name_to_number insts).map Prod.fst).Nodup ∧
    ((name_to_number insts).map Prod.snd).Nodup ∧
    ((name_to_number insts).map Prod.snd =
      List.range' 1 (name_to_number insts).length) ∧
    ((name_to_number insts).map Prod.fst = first_seen_names insts) := by
  have base := ntn_fold_inv insts [] 1 (by simp) (by simp) (by simp)
  refine ⟨?_, base.2.1, ?_, base.1, base.2.2⟩
  · intro p hp q hq h
    rw [h]
  · unfold name_to_number
    rw [base.1]
    exact List.nodup_range' ..

/-- Concrete assembly for the C2 witness: two instances share the name
of the wall. -/
def c2Insts : List AsmInstance :=
  [AsmInstance.mk ("Корпус короба".toList) ("А.001".toList) ([]),
   AsmInstance.mk ("Стенка".toList) ("А.002".toList) ([]),
   AsmInstance.mk ("Ребро".toList) ([]) ([]),
   AsmInstance.mk ("Стенка".toList) ("А.009".toList) ([])]

/-- Witness for C2: in the concrete assembly the two wall instances
resolve to the same sequence number. -/
theorem name_to_number_grouping_witness :
    numLookup (name_to_number c2Insts)
        (pyStrip (AsmInstance.mk ("Стенка".toList) ("А.002".toList) ([])).name) =
      numLookup (name_to_number c2Insts)
        (pyStrip (AsmInstance.mk ("Стенка".toList) ("А.009".toList) ([])).name) :=
  (name_to_number_grouping c2Insts).1
    (AsmInstance.mk ("Стенка".toList) ("А.002".toList) ([])) (by decide)
    (AsmInstance.mk ("Стенка".toList) ("А.009".toList) ([])) (by decide)
    (by decide)

/-!
## Lemmas for the per-part write (claims C3, C5, C8)
-/

lemma update_matched_var_name (v : PartVar) (val : ℚ) :
    (update_matched_var v val).name = v.name := by
  unfold update_matched_var
  split
  · rfl
  · split
    · rfl
    · rfl

lemma updateFirstVar_names (vs : List PartVar) (n : Str) (val : ℚ) :
    (updateFirstVar vs n val).map PartVar.name = vs.map PartVar.name := by
  induction vs with
  | nil => rfl
  | cons v vs ih =>
    unfold updateFirstVar
    by_cases h : v.name = n
    · rw [if_pos h]
      simp [update_matched_var_name]
    · rw [if_neg h]
      simp [ih]

lemma updateVarsStep_names (st : List PartVar × Nat) (nv : Str × ℚ) :
    ((updateVarsStep st nv).1).map PartVar.name = st.1.map PartVar.name := by
  unfold updateVarsStep
  split
  · rfl
  · split
    · exact updateFirstVar_names st.1 nv.1 nv.2
    · rfl

lemma foldl_updateVarsStep_names (derived : List (Str × ℚ)) :
    ∀ st : List PartVar × Nat,
      ((derived.foldl updateVarsStep st).1).map PartVar.name =
        st.1.map PartVar.name := by
  induction derived with
  | nil => intro st; rfl
  | cons nv rest ih =>
    intro st
    simp only [List.foldl_cons]
    rw [ih (updateVarsStep st nv)]
    exact updateVarsStep_names st nv

/-- Part variable set for the C3 example of the spec. -/
def c3Part : List PartVar :=
  [PartVar.mk ("A1".toList) 100 ([]) false,
   PartVar.mk ("A4".toList) 95 ([]) false]

/-- Derived map for the C3 example of the spec. -/
def c3Derived : List (Str × ℚ) :=
  [("A1".toList, 155), ("A3".toList, 135), ("A4".toList, 150),
   ("B5".toList, 346)]

/-- C3: Propagation non-creation.  The per-part write never changes the
list of variable names of a part: a derived-map entry updates a variable
only when one of that name already exists, and never creates one.  In
particular a part holding exactly A1 and A4, written against a derived
map holding A1, A3, A4 and B5, still holds exactly A1 and A4. -/
theorem propagation_non_creation (derived : List (Str × ℚ))
    (pvars : List PartVar) :
    (update_part_vars derived pvars).1.map PartVar.name =
        pvars.map PartVar.name ∧
      (update_part_vars c3Derived c3Part).1.map PartVar.name =
        [("A1".toList), ("A4".toList)] :=
  ⟨foldl_updateVarsStep_names derived (pvars, 0), by decide⟩

lemma updateFirstVar_preserves (vs : List PartVar) (n : Str) (val : ℚ) :
    ∀ (i : Nat) (v : PartVar), vs[i]? = some v → v.name ≠ n →
      (updateFirstVar vs n val)[i]? = some v := by
  induction vs with
  | nil => intro i v hv _; simp at hv
  | cons u us ih =>
    intro i v hv hne
    unfold updateFirstVar
    by_cases h : u.name = n
    · rw [if_pos h]
      cases i with
      | zero =>
        simp only [List.getElem?_cons_zero, Option.some.injEq] at hv
        subst hv
        exact absurd h hne
      | succ j =>
        simp only [List.getElem?_cons_succ] at hv ⊢
        exact hv
    · rw [if_neg h]
      cases i with
      | zero =>
        simpa using hv
      | succ j =>
        simp only [List.getElem?_cons_succ] at hv ⊢
        exact ih j v hv hne

lemma updateVarsStep_preserves_instance (st : List PartVar × Nat)
    (nv : Str × ℚ) (i : Nat) (v : PartVar) (hv : st.1[i]? = some v)
    (hinst : is_instance_var v.name = true) :
    (updateVarsStep st nv).1[i]? = some v := by
  unfold updateVarsStep
  by_cases h1 : is_instance_var nv.1 = true
  · rw [if_pos h1]
    exact hv
  · rw [if_neg h1]
    by_cases h2 : hasVar st.1 nv.1 = true
    · rw [if_pos h2]
      exact updateFirstVar_preserves st.1 nv.1 nv.2 i v hv
        (fun hh => h1 (hh ▸ hinst))
    · rw [if_neg h2]
      exact hv

lemma foldl_preserves_instance (derived : List (Str × ℚ)) :
    ∀ (st : List PartVar × Nat) (i : Nat) (v : PartVar),
      st.1[i]? = some v → is_instance_var v.name = true →
      ((derived.foldl updateVarsStep st).1)[i]? = some v := by
  induction derived with
  | nil => intro st i v hv _; exact hv
  | cons nv rest ih =>
    intro st i v hv hinst
    simp only [List.foldl_cons]
    exact ih _ i v (updateVarsStep_preserves_instance st nv i v hv hinst) hinst

/-- C8: Instance-scoped variable skip.  During the per-part write, every
derived-map entry whose name matches the instance-variable pattern
(leading `v`, a non-empty digit run, an underscore) is skipped, so a part
variable whose own name matches the pattern is never written: it survives
the whole write unchanged, at its position. -/
theorem instance_var_skip (derived : List (Str × ℚ)) (pvars : List PartVar)
    (i : Nat) (v : PartVar) (hv : pvars[i]? = some v)
    (hinst : is_instance_var v.name = true) :
    (update_part_vars derived pvars).1[i]? = some v :=
  foldl_preserves_instance derived (pvars, 0) i v hv hinst

/-- Part with an instance-scoped variable, for the C8 witness. -/
def c8Part : List PartVar :=
  [PartVar.mk ("v1398_B3".toList) 7 ([]) false,
   PartVar.mk ("B3".toList) 290 ([]) false]

/-- Derived map containing the same instance-scoped name, for the C8
witness. -/
def c8Derived : List (Str × ℚ) :=
  [("v1398_B3".toList, 5), ("B3".toList, 300)]

/-- Witness for C8: the `v1398_B3` part variable is untouched even
though the derived map carries an entry of that very name. -/
theorem instance_var_skip_witness :
    (update_part_vars c8Derived c8Part).1[0]? =
      some (PartVar.mk ("v1398_B3".toList) 7 ([]) false) :=
  instance_var_skip c8Derived c8Part 0
    (PartVar.mk ("v1398_B3".toList) 7 ([]) false) (by decide) (by decide)

lemma update_matched_var_formula (v : PartVar) (val : ℚ)
    (hf : has_formula v.expression = true)
    (hh : has_hyperlink v.expression = false) :
    (update_matched_var v val).expression = v.expression ∧
    (update_matched_var v val).value = v.value := by
  unfold update_matched_var
  rw [if_neg (by rw [hh]; exact Bool.false_ne_true), if_pos hf]
  exact ⟨rfl, rfl⟩

lemma updateFirstVar_formula_at (vs : List PartVar) (n : Str) (val : ℚ) :
    ∀ (i : Nat) (v : PartVar), vs[i]? = some v →
      ∃ w, (updateFirstVar vs n val)[i]? = some w ∧
        (w = v ∨ w = update_matched_var v val) := by
  induction vs with
  | nil => intro i v hv; simp at hv
  | cons u us ih =>
    intro i v hv
    unfold updateFirstVar
    by_cases h : u.name = n
    · rw [if_pos h]
      cases i with
      | zero =>
        simp only [List.getElem?_cons_zero, Option.some.injEq] at hv
        subst hv
        exact ⟨update_matched_var u val, by simp, Or.inr rfl⟩
      | succ j =>
        simp only [List.getElem?_cons_succ] at hv ⊢
        exact ⟨v, hv, Or.inl rfl⟩
    · rw [if_neg h]
      cases i with
      | zero =>
        simp only [List.getElem?_cons_zero, Option.some.injEq] at hv
        subst hv
        exact ⟨u, by simp, Or.inl rfl⟩
      | succ j =>
        simp only [List.getElem?_cons_succ] at hv ⊢
        exact ih j v hv

lemma updateVarsStep_formula (st : List PartVar × Nat) (nv : Str × ℚ)
    (i : Nat) (e : Str) (q : ℚ)
    (hfe : has_formula e = true) (hhe : has_hyperlink e = false)
    (hv : ∃ w, st.1[i]? = some w ∧ w.expression = e ∧ w.value = q) :
    ∃ w, (updateVarsStep st nv).1[i]? = some w ∧
      w.expression = e ∧ w.value = q := by
  obtain ⟨w, hw, hwe, hwv⟩ := hv
  unfold updateVarsStep
  by_cases h1 : is_instance_var nv.1 = true
  · rw [if_pos h1]
    exact ⟨w, hw, hwe, hwv⟩
  · rw [if_neg h1]
    by_cases h2 : hasVar st.1 nv.1 = true
    · rw [if_pos h2]
      obtain ⟨w2, hw2, hcase⟩ := updateFirstVar_formula_at st.1 nv.1 nv.2 i w hw
      rcases hcase with h | h
      · subst h
        exact ⟨w2, hw2, hwe, hwv⟩
      · subst h
        have hk := update_matched_var_formula w nv.2 (by rw [hwe]; exact hfe)
          (by rw [hwe]; exact hhe)
        exact ⟨_, hw2, by rw [hk.1, hwe], by rw [hk.2, hwv]⟩
    · rw [if_neg h2]
      exact ⟨w, hw, hwe, hwv⟩

lemma foldl_formula (derived : List (Str × ℚ)) :
    ∀ (st : List PartVar × Nat) (i : Nat) (e : Str) (q : ℚ),
      has_formula e = true → has_hyperlink e = false →
      (∃ w, st.1[i]? = some w ∧ w.expression = e ∧ w.value = q) →
      ∃ w, ((derived.foldl updateVarsStep st).1)[i]? = some w ∧
        w.expression = e ∧ w.value = q := by
  induction derived with
  | nil => intro st i e q _ _ hv; exact hv
  | cons nv rest ih =>
    intro st i e q hfe hhe hv
    simp only [List.foldl_cons]
    exact ih _ i e q hfe hhe (updateVarsStep_formula st nv i e q hfe hhe hv)

/-- C5: Formula preservation.  A part variable whose expression encodes a
formula (contains an arithmetic operator or conditional token) and is not
hyperlink-like is never replaced by a bare literal: after the per-part
write the variable at its position still carries exactly the same
expression text, and its numeric value field was not overwritten (the
host engine recomputes it from the restored formula). -/
theorem formula_preservation (derived : List (Str × ℚ))
    (pvars : List PartVar) (i : Nat) (v : PartVar)
    (hv : pvars[i]? = some v)
    (hf : has_formula v.expression = true)
    (hh : has_hyperlink v.expression = false) :
    ∃ w, (update_part_vars derived pvars).1[i]? = some w ∧
      w.expression = v.expression ∧ w.value = v.value :=
  foldl_formula derived (pvars, 0) i v.expression v.value hf hh
    ⟨v, hv, rfl, rfl⟩

/-- Part with the formula variable `A1-20`, for the C5 witness. -/
def c5Part : List PartVar :=
  [PartVar.mk ("A3".toList) 135 ("A1-20".toList) false]

/-- Witness for C5: propagation against a derived map carrying `A3`
leaves the `A1-20` expression text and the stored value untouched. -/
theorem formula_preservation_witness :
    ∃ w, (update_part_vars c3Derived c5Part).1[0]? = some w ∧
      w.expression = (PartVar.mk ("A3".toList) 135 ("A1-20".toList) false).expression ∧
      w.value = (PartVar.mk ("A3".toList) 135 ("A1-20".toList) false).value :=
  formula_preservation c3Derived c5Part 0
    (PartVar.mk ("A3".toList) 135 ("A1-20".toList) false)
    (by decide) (by decide) (by decide)

/-!
## Lemmas for the derivation step (claim C4)
-/

lemma dictGet_insert (m : VarMap) (k : Str) (v : ℚ) (x : Str) :
    dictGet (dictInsert m k v) x = if x = k then some v else dictGet m x := by
  induction m with
  | nil => rfl
  | cons a m ih =>
    obtain ⟨a1, a2⟩ := a
    by_cases h1 : a1 = k
    · subst h1
      show dictGet (if a1 = a1 then (a1, v) :: m else (a1, a2) :: dictInsert m a1 v) x = _
      rw [if_pos rfl]
      by_cases h2 : x = a1
      · show (if x = a1 then some v else dictGet m x) = _
        rw [if_pos h2, if_pos h2]
      · show (if x = a1 then some v else dictGet m x) = _
        rw [if_neg h2, if_neg h2]
        show dictGet m x = if x = a1 then some a2 else dictGet m x
        rw [if_neg h2]
    · show dictGet (if a1 = k then (k, v) :: m else (a1, a2) :: dictInsert m k v) x = _
      rw [if_neg h1]
      by_cases h2 : x = a1
      · have hxk : ¬x = k := by rw [h2]; exact h1
        show (if x = a1 then some a2 else dictGet (dictInsert m k v) x) = _
        rw [if_pos h2, if_neg hxk]
        show some a2 = if x = a1 then some a2 else dictGet m x
        rw [if_pos h2]
      · show (if x = a1 then some a2 else dictGet (dictInsert m k v) x) = _
        rw [if_neg h2, ih]
        by_cases h3 : x = k
        · rw [if_pos h3, if_pos h3]
        · rw [if_neg h3, if_neg h3]
          show dictGet m x = if x = a1 then some a2 else dictGet m x
          rw [if_neg h2]

lemma derive_A4_other (m : VarMap) (x : Str) (hx : x ≠ ("A4".toList)) :
    dictGet (derive_A4 m) x = dictGet m x := by
  unfold derive_A4
  cases hA1 : dictGet m ("A1".toList) with
  | none => rfl
  | some a1 => rw [dictGet_insert, if_neg hx]

lemma derive_B34_other (b1 : ℚ) (m : VarMap) (x : Str)
    (h3 : x ≠ ("B3".toList)) (h4 : x ≠ ("B4".toList)) :
    dictGet (derive_B34 b1 m) x = dictGet m x := by
  unfold derive_B34
  cases hB2 : dictGet m ("B2".toList) with
  | none => rfl
  | some b2 => rw [dictGet_insert, if_neg h4, dictGet_insert, if_neg h3]

lemma derive_B56_other (b1 : ℚ) (m : VarMap) (x : Str)
    (h5 : x ≠ ("B5".toList)) (h6 : x ≠ ("B6".toList)) :
    dictGet (derive_B56 b1 m) x = dictGet m x := by
  unfold derive_B56
  rw [dictGet_insert, if_neg h6, dictGet_insert, if_neg h5]

lemma derive_A5_other (m : VarMap) (x : Str) (h5 : x ≠ ("A5".toList)) :
    dictGet (derive_A5 m) x = dictGet m x := by
  unfold derive_A5
  cases hA2 : dictGet m ("A2".toList) with
  | none => rfl
  | some a2 => rw [dictGet_insert, if_neg h5]

lemma acv_A3 (h b1 : ℚ) (m0 : VarMap) :
    dictGet (all_calculated_vars h b1 m0) ("A3".toList) =
      dictGet (derive_A3 (derive_A4 (derive_A1 h m0))) ("A3".toList) := by
  unfold all_calculated_vars
  rw [derive_A5_other _ _ (by decide),
    derive_B56_other _ _ _ (by decide) (by decide),
    derive_B34_other _ _ _ (by decide) (by decide)]

/-- C4: the A3 derivation rule.  Whenever A1 is present in the in-memory
map at the point of the A3 rule — either because it was just rederived as
`H - A2` (A2 present) or because it was already in the map — A3 is set to
`A1 - coeff` with `coeff = A1 - A3_observed` when A3 was present (so the
rule's result collapses to the observed A3) and `coeff = 20` otherwise. -/
theorem a3_derivation_rule (h b1 : ℚ) (m0 : VarMap) :
    (∀ a2 a3, dictGet m0 ("A2".toList) = some a2 →
      dictGet m0 ("A3".toList) = some a3 →
      dictGet (all_calculated_vars h b1 m0) ("A3".toList) =
          some ((h - a2) - ((h - a2) - a3)) ∧
      dictGet (all_calculated_vars h b1 m0) ("A3".toList) = some a3) ∧
    (∀ a2, dictGet m0 ("A2".toList) = some a2 →
      dictGet m0 ("A3".toList) = none →
      dictGet (all_calculated_vars h b1 m0) ("A3".toList) =
        some ((h - a2) - 20)) ∧
    (∀ a1 a3, dictGet m0 ("A2".toList) = none →
      dictGet m0 ("A1".toList) = some a1 →
      dictGet m0 ("A3".toList) = some a3 →
      dictGet (all_calculated_vars h b1 m0) ("A3".toList) =
          some (a1 - (a1 - a3)) ∧
      dictGet (all_calculated_vars h b1 m0) ("A3".toList) = some a3) ∧
    (∀ a1, dictGet m0 ("A2".toList) = none →
      dictGet m0 ("A1".toList) = some a1 →
      dictGet m0 ("A3".toList) = none →
      dictGet (all_calculated_vars h b1 m0) ("A3".toList) =
        some (a1 - 20)) := by
  refine ⟨?_, ?_, ?_, ?_⟩
  · intro a2 a3 hA2 hA3
    have e1 : derive_A1 h m0 = dictInsert m0 ("A1".toList) (h - a2) := by
      unfold derive_A1
      rw [hA2]
    have g1 : dictGet (derive_A4 (derive_A1 h m0)) ("A1".toList) =
        some (h - a2) := by
      rw [derive_A4_other _ _ (by decide), e1, dictGet_insert, if_pos rfl]
    have g3 : dictGet (derive_A4 (derive_A1 h m0)) ("A3".toList) =
        some a3 := by
      rw [derive_A4_other _ _ (by decide), e1, dictGet_insert,
        if_neg (by decide)]
      exact hA3
    have e3 : derive_A3 (derive_A4 (derive_A1 h m0)) =
        dictInsert (derive_A4 (derive_A1 h m0)) ("A3".toList)
          ((h - a2) - ((h - a2) - a3)) := by
      unfold derive_A3
      rw [g1, g3]
    have hval : dictGet (all_calculated_vars h b1 m0) ("A3".toList) =
        some ((h - a2) - ((h - a2) - a3)) := by
      rw [acv_A3, e3, dictGet_insert, if_pos rfl]
    refine ⟨hval, ?_⟩
    rw [hval]
    congr 1
    ring
  · intro a2 hA2 hA3
    have e1 : derive_A1 h m0 = dictInsert m0 ("A1".toList) (h - a2) := by
      unfold derive_A1
      rw [hA2]
    have g1 : dictGet (derive_A4 (derive_A1 h m0)) ("A1".toList) =
        some (h - a2) := by
      rw [derive_A4_other _ _ (by decide), e1, dictGet_insert, if_pos rfl]
    have g3 : dictGet (derive_A4 (derive_A1 h m0)) ("A3".toList) = none := by
      rw [derive_A4_other _ _ (by decide), e1, dictGet_insert,
        if_neg (by decide)]
      exact hA3
    have e3 : derive_A3 (derive_A4 (derive_A1 h m0)) =
        dictInsert (derive_A4 (derive_A1 h m0)) ("A3".toList)
          ((h - a2) - 20) := by
      unfold derive_A3
      rw [g1, g3]
    rw [acv_A3, e3, dictGet_insert, if_pos rfl]
  · intro a1 a3 hA2 hA1 hA3
    have e1 : derive_A1 h m0 = m0 := by
      unfold derive_A1
      rw [hA2]
    have g1 : dictGet (derive_A4 (derive_A1 h m0)) ("A1".toList) =
        some a1 := by
      rw [derive_A4_other _ _ (by decide), e1]
      exact hA1
    have g3 : dictGet (derive_A4 (derive_A1 h m0)) ("A3".toList) =
        some a3 := by
      rw [derive_A4_other _ _ (by decide), e1]
      exact hA3
    have e3 : derive_A3 (derive_A4 (derive_A1 h m0)) =
        dictInsert (derive_A4 (derive_A1 h m0)) ("A3".toList)
          (a1 - (a1 - a3)) := by
      unfold derive_A3
      rw [g1, g3]
    have hval : dictGet (all_calculated_vars h b1 m0) ("A3".toList) =
        some (a1 - (a1 - a3)) := by
      rw [acv_A3, e3, dictGet_insert, if_pos rfl]
    refine ⟨hval, ?_⟩
    rw [hval]
    congr 1
    ring
  · intro a1 hA2 hA1 hA3
    have e1 : derive_A1 h m0 = m0 := by
      unfold derive_A1
      rw [hA2]
    have g1 : dictGet (derive_A4 (derive_A1 h m0)) ("A1".toList) =
        some a1 := by
      rw [derive_A4_other _ _ (by decide), e1]
      exact hA1
    have g3 : dictGet (derive_A4 (derive_A1 h m0)) ("A3".toList) = none := by
      rw [derive_A4_other _ _ (by decide), e1]
      exact hA3
    have e3 : derive_A3 (derive_A4 (derive_A1 h m0)) =
        dictInsert (derive_A4 (derive_A1 h m0)) ("A3".toList) (a1 - 20) := by
      unfold derive_A3
      rw [g1, g3]
    rw [acv_A3, e3, dictGet_insert, if_pos rfl]

/-- Witness for C4: with `H = 160`, observed `A2 = 31` and observed
`A3 = 135`, the rederived A3 equals the observed value 135. -/
theorem a3_derivation_rule_witness :
    dictGet (all_calculated_vars 160 350
        [(("A2".toList), 31), (("A3".toList), 135)]) ("A3".toList) =
      some 135 :=
  ((a3_derivation_rule 160 350
      [(("A2".toList), 31), (("A3".toList), 135)]).1 31 135
    (by decide) (by decide)).2

/-!
## Lemmas for quantity resolution (claim C6)
-/

lemma quantity_fold (m : Str) (insts : List AsmInstance) :
    ∀ c : Nat,
      insts.foldl
        (fun c p =>
          if skip_mark_dxf (pyStrip p.marking) then c
          else if pyStrip p.marking = m then c + 1 else c) c =
      c + insts.countP
        (fun p => !skip_mark_dxf (pyStrip p.marking) &&
          decide (pyStrip p.marking = m)) := by
  induction insts with
  | nil => intro c; simp
  | cons p rest ih =>
    intro c
    simp only [List.foldl_cons, List.countP_cons]
    by_cases h1 : skip_mark_dxf (pyStrip p.marking) = true
    · simp [h1, ih]
    · rw [Bool.not_eq_true] at h1
      by_cases h2 : pyStrip p.marking = m
      · have h1b : skip_mark_dxf m = false := by
          rw [← h2]
          exact h1
        simp [h1, h1b, h2, ih]
        omega
      · simp [h1, h2, ih]

/-- Concrete DXF-count assembly: four instances designated X.001, two
X.002, and one stray empty designation. -/
def c6Insts : List AsmInstance :=
  [AsmInstance.mk ("Стенка".toList) ("X.001".toList) ([]),
   AsmInstance.mk ("Стенка".toList) ("X.001".toList) ([]),
   AsmInstance.mk ("Крышка".toList) ("X.002".toList) ([]),
   AsmInstance.mk ("Стенка".toList) ("X.001".toList) ([]),
   AsmInstance.mk ("Крышка".toList) ("X.002".toList) ([]),
   AsmInstance.mk ("Ребро".toList) ([]) ([]),
   AsmInstance.mk ("Стенка".toList) ("X.001".toList) ([])]

/-- C6: Quantity resolution.  The count walks the instances in order
with exactly the designation engine's skip rule (the two skip predicates
are one and the same function of the stripped designation), counts exact
string matches only, and returns 1 when nothing matched.  On the
concrete assembly: X.001 counts 4, X.002 counts 2, and the absent X.003
resolves to the default 1. -/
theorem quantity_resolution (insts : List AsmInstance) (m : Str) :
    (get_part_quantity_from_assembly insts m =
      if insts.countP
          (fun p => !skip_mark_dxf (pyStrip p.marking) &&
            decide (pyStrip p.marking = m)) = 0
      then 1
      else insts.countP
        (fun p => !skip_mark_dxf (pyStrip p.marking) &&
          decide (pyStrip p.marking = m))) ∧
    (∀ x, skip_mark_dxf x = skip_mark x) ∧
    get_part_quantity_from_assembly c6Insts ("X.001".toList) = 4 ∧
    get_part_quantity_from_assembly c6Insts ("X.002".toList) = 2 ∧
    get_part_quantity_from_assembly c6Insts ("X.003".toList) = 1 := by
  refine ⟨?_, fun x => rfl, by decide, by decide, by decide⟩
  show (if 0 < insts.foldl
      (fun c p =>
        if skip_mark_dxf (pyStrip p.marking) then c
        else if pyStrip p.marking = m then c + 1 else c) 0
    then insts.foldl
      (fun c p =>
        if skip_mark_dxf (pyStrip p.marking) then c
        else if pyStrip p.marking = m then c + 1 else c) 0
    else 1) = _
  rw [quantity_fold m insts 0]
  simp only [Nat.zero_add]
  rcases Nat.eq_zero_or_pos (insts.countP
      (fun p => !skip_mark_dxf (pyStrip p.marking) &&
        decide (pyStrip p.marking = m))) with hz | hpos
  · rw [hz]
    simp
  · rw [if_pos hpos, if_neg (by omega)]

/-!
## Lemmas for purchased-component stability (claim C7)
-/

lemma containsSub_of_mem (l : Str) (c : Char) (h : c ∈ l) :
    containsSub l [c] = true := by
  induction l with
  | nil => simp at h
  | cons a as ih =>
    unfold containsSub
    rw [List.tails_cons, List.any_cons]
    rcases List.mem_cons.mp h with h1 | h2
    · subst h1
      simp [List.isPrefixOf]
    · unfold containsSub at ih
      rw [ih h2]
      simp

lemma splitOnChar_cons (sep c : Char) (cs : Str) :
    splitOnChar sep (c :: cs) =
      if c = sep then [] :: splitOnChar sep cs
      else
        match splitOnChar sep cs with
        | [] => [[c]]
        | t :: ts => (c :: t) :: ts := rfl

lemma splitOnChar_no_sep (sep : Char) (l : Str) (h : sep ∉ l) :
    splitOnChar sep l = [l] := by
  induction l with
  | nil => rfl
  | cons c cs ih =>
    have hc : ¬c = sep := fun hh => h (hh ▸ List.mem_cons_self c cs)
    have hcs : sep ∉ cs := fun hh => h (List.mem_cons_of_mem c hh)
    rw [splitOnChar_cons, if_neg hc, ih hcs]

lemma splitOnChar_append (sep : Char) (a rest : Str) (h : sep ∉ a) :
    splitOnChar sep (a ++ sep :: rest) = a :: splitOnChar sep rest := by
  induction a with
  | nil =>
    show splitOnChar sep (sep :: rest) = [] :: splitOnChar sep rest
    rw [splitOnChar_cons, if_pos rfl]
  | cons c cs ih =>
    have hc : ¬c = sep := fun hh => h (hh ▸ List.mem_cons_self c cs)
    have hcs : sep ∉ cs := fun hh => h (List.mem_cons_of_mem c hh)
    show splitOnChar sep (c :: (cs ++ sep :: rest)) = _
    rw [splitOnChar_cons, if_neg hc, ih hcs]

lemma takeWhile_append_stop (p : Char → Bool) (cs w : Str) (x : Char)
    (hcs : ∀ c ∈ cs, p c = true) (hx : p x = false) :
    (cs ++ x :: w).takeWhile p = cs := by
  induction cs with
  | nil => simp [List.takeWhile, hx]
  | cons c cs ih =>
    have hc := hcs c (List.mem_cons_self c cs)
    show ((c :: (cs ++ x :: w)).takeWhile p) = c :: cs
    rw [List.takeWhile_cons, hc]
    simp only [if_true]
    rw [ih (fun d hd => hcs d (List.mem_cons_of_mem c hd))]

lemma dropWhile_append_stop (p : Char → Bool) (cs w : Str) (x : Char)
    (hcs : ∀ c ∈ cs, p c = true) (hx : p x = false) :
    (cs ++ x :: w).dropWhile p = x :: w := by
  induction cs with
  | nil => simp [List.dropWhile, hx]
  | cons c cs ih =>
    have hc := hcs c (List.mem_cons_self c cs)
    show ((c :: (cs ++ x :: w)).dropWhile p) = x :: w
    rw [List.dropWhile_cons, hc]
    simp only [if_true]
    exact ih (fun d hd => hcs d (List.mem_cons_of_mem c hd))

lemma pySplitWs_single (t : Str) (ht : t ≠ [])
    (hc : ∀ c ∈ t, pyIsSpace c = false) : pySplitWs t = [t] := by
  cases t with
  | nil => exact absurd rfl ht
  | cons c cs =>
    have hcc := hc c (List.mem_cons_self c cs)
    rw [pySplitWs]
    rw [if_neg (by rw [hcc]; exact Bool.false_ne_true)]
    have h1 : cs.takeWhile (fun x => !pyIsSpace x) = cs := by
      rw [List.takeWhile_eq_self_iff]
      intro d hd
      rw [hc d (List.mem_cons_of_mem c hd)]
      rfl
    have h2 : cs.dropWhile (fun x => !pyIsSpace x) = [] := by
      rw [List.dropWhile_eq_nil_iff]
      intro d hd
      rw [hc d (List.mem_cons_of_mem c hd)]
      rfl
    have h0 : pySplitWs [] = [] := by rw [pySplitWs]
    rw [h1, h2, h0]

lemma pySplitWs_two (t w : Str) (ht : t ≠ [])
    (htc : ∀ c ∈ t, pyIsSpace c = false)
    (hw : w ≠ []) (hwc : ∀ c ∈ w, pyIsSpace c = false) :
    pySplitWs (t ++ ' ' :: w) = [t, w] := by
  cases t with
  | nil => exact absurd rfl ht
  | cons c cs =>
    have hcc := htc c (List.mem_cons_self c cs)
    show pySplitWs (c :: (cs ++ ' ' :: w)) = [c :: cs, w]
    rw [pySplitWs]
    rw [if_neg (by rw [hcc]; exact Bool.false_ne_true)]
    rw [takeWhile_append_stop _ cs w ' '
      (fun d hd => by rw [htc d (List.mem_cons_of_mem c hd)]; rfl)
      (by rfl)]
    rw [dropWhile_append_stop _ cs w ' '
      (fun d hd => by rw [htc d (List.mem_cons_of_mem c hd)]; rfl)
      (by rfl)]
    have h3 : pySplitWs (' ' :: w) = [w] := by
      rw [pySplitWs]
      rw [if_pos (by rfl)]
      exact pySplitWs_single w hw hwc
    rw [h3]

/-- C7: Purchased-component stability.  (1) An assembly instance whose
name matches the purchased-keyword set is never rewritten by the
designation pass: its designation and the write counter stay unchanged.
(2) The single exception is the heat-exchanger part file, whose
designation's trailing length field (third dot-separated field of the
first whitespace token) is replaced by `str(L1 - 300)`. -/
theorem purchased_stability :
    (∀ (full short : Str) (N : List (Str × Nat)) (p : AsmInstance),
      is_purchased_name (pyStrip p.name) = true →
      processInstance full short N p = (p, 0)) ∧
    (∀ (L1 : Int) (a b c w : Str),
      '.' ∉ a → '.' ∉ b → '.' ∉ c →
      (∀ x ∈ a, pyIsSpace x = false) → (∀ x ∈ b, pyIsSpace x = false) →
      (∀ x ∈ c, pyIsSpace x = false) →
      w ≠ [] → (∀ x ∈ w, pyIsSpace x = false) →
      heat_exchanger_new_marking L1
          ((a ++ '.' :: (b ++ '.' :: c)) ++ ' ' :: w) =
        (a ++ '.' :: (b ++ '.' :: intToStr (L1 - 300))) ++ ' ' :: w) := by
  constructor
  · intro full short N p hpur
    by_cases hskip : skip_mark (pyStrip p.marking) = true
    · rw [processInstance_eq, if_pos hskip]
    · rw [Bool.not_eq_true] at hskip
      cases hlook : numLookup N (pyStrip p.name) with
      | none =>
        rw [processInstance_eq,
          if_neg (by rw [hskip]; exact Bool.false_ne_true), hlook]
      | some num =>
        rw [processInstance_eq_some full short N p num hskip hlook]
        have hnm : new_mark full short (pyStrip p.marking) (pyStrip p.name)
            (pad3 num) = pyStrip p.marking := by
          unfold new_mark
          rw [if_pos hpur]
        rw [hnm]
        exact if_pos rfl
  · intro L1 a b c w hda hdb hdc hsa hsb hsc hwne hsw
    have htne : a ++ '.' :: (b ++ '.' :: c) ≠ [] := by
      intro hh
      have h2 := (List.append_eq_nil.mp hh).2
      simp at h2
    have htc : ∀ x ∈ a ++ '.' :: (b ++ '.' :: c), pyIsSpace x = false := by
      intro x hx
      rcases List.mem_append.mp hx with h1 | h1
      · exact hsa x h1
      · rcases List.mem_cons.mp h1 with h2 | h2
        · subst h2
          rfl
        · rcases List.mem_append.mp h2 with h3 | h3
          · exact hsb x h3
          · rcases List.mem_cons.mp h3 with h4 | h4
            · subst h4
              rfl
            · exact hsc x h4
    have hws : pySplitWs ((a ++ '.' :: (b ++ '.' :: c)) ++ ' ' :: w) =
        [a ++ '.' :: (b ++ '.' :: c), w] :=
      pySplitWs_two _ w htne htc hwne hsw
    have hdots : splitOnChar '.' (a ++ '.' :: (b ++ '.' :: c)) =
        [a, b, c] := by
      rw [splitOnChar_append '.' a _ hda]
      rw [splitOnChar_append '.' b c hdb]
      rw [splitOnChar_no_sep '.' c hdc]
    have hmem : '.' ∈ a ++ '.' :: (b ++ '.' :: c) := by
      simp
    unfold heat_exchanger_new_marking
    rw [hws]
    rw [if_pos ⟨by simp, by
      show containsSub ([a ++ '.' :: (b ++ '.' :: c), w].headD []) ['.'] = true
      rw [List.headD_cons]
      exact containsSub_of_mem _ '.' hmem⟩]
    show (if (splitOnChar '.' ([a ++ '.' :: (b ++ '.' :: c), w].headD [])).length = 3
        then _ else _) = _
    rw [List.headD_cons, hdots]
    rw [if_pos (show ([a, b, c] : List Str).length = 3 from rfl)]
    rfl

/-- Witness for C7: a concrete fan instance is untouched by the pass,
and a concrete heat-exchanger designation gets its trailing length field
replaced by 2300 - 300 = 2000. -/
theorem purchased_stability_witness :
    processInstance (full_name ("ZVD.LITE".toList) 160 350 2600)
        (short_name ("ZVD.LITE".toList) 160 350) []
        (AsmInstance.mk ("Вентилятор".toList) ("ВЕНТС 100".toList) ([])) =
      (AsmInstance.mk ("Вентилятор".toList) ("ВЕНТС 100".toList) ([]), 0) ∧
    heat_exchanger_new_marking 2300
        (("ВНВ".toList ++ '.' :: ("243".toList ++ '.' :: ("2600".toList))) ++
          ' ' :: ("ТУ".toList)) =
      ("ВНВ".toList ++ '.' :: ("243".toList ++ '.' :: intToStr (2300 - 300))) ++
        ' ' :: ("ТУ".toList) :=
  ⟨purchased_stability.1 _ _ []
      (AsmInstance.mk ("Вентилятор".toList) ("ВЕНТС 100".toList) ([]))
      (by decide),
   purchased_stability.2 2300 ("ВНВ".toList) ("243".toList) ("2600".toList)
      ("ТУ".toList) (by decide) (by decide) (by decide) (by decide)
      (by decide) (by decide) (by decide) (by decide)⟩

/-!
## Rename-collision handling (claim C9)
-/

/-- Counterexample to C9 as stated: a part-file rename whose target
already exists does not delete the target — the bare rename fails, is
logged, and the file system is left unchanged (the source file keeps its
old name). -/
theorem rename_collision_counterexample :
    rename_part_file
        [("001 - Стенка.m3d".toList), ("002 - Стенка.m3d".toList)]
        ("001 - Стенка.m3d".toList) ("002 - Стенка.m3d".toList) =
      [("001 - Стенка.m3d".toList), ("002 - Стенка.m3d".toList)] ∧
    ("001 - Стенка.m3d".toList) ∈ rename_part_file
        [("001 - Стенка.m3d".toList), ("002 - Стенка.m3d".toList)]
        ("001 - Стенка.m3d".toList) ("002 - Стенка.m3d".toList) := by
  decide

/-- C9 (amended): drawing-file and DXF renames delete a pre-existing
target before renaming, so the rename succeeds (the new name is present
and the old name is gone); a part-file rename with an existing target is
attempted bare, fails, and leaves the file system unchanged. -/
theorem rename_collision_amended (fs : List Str) (o n : Str)
    (hnd : fs.Nodup) (ho : o ∈ fs) (hn : n ∈ fs) (hne : o ≠ n) :
    (n ∈ rename_drawing_file fs o n ∧ o ∉ rename_drawing_file fs o n) ∧
    (n ∈ rename_dxf_file fs o n ∧ o ∉ rename_dxf_file fs o n) ∧
    rename_part_file fs o n = fs := by
  have hfs1o : o ∈ fs.erase n := (List.mem_erase_of_ne hne).mpr ho
  have hfs1n : n ∉ fs.erase n := hnd.not_mem_erase
  have hren : fsRename (fs.erase n) o n =
      some ((fs.erase n).map (fun f => if f = o then n else f)) := by
    unfold fsRename
    rw [if_neg hfs1n, if_pos hfs1o]
  have hmain : ∀ g : List Str,
      g = (fs.erase n).map (fun f => if f = o then n else f) →
      n ∈ g ∧ o ∉ g := by
    intro g hg
    subst hg
    constructor
    · exact List.mem_map.mpr ⟨o, hfs1o, by rw [if_pos rfl]⟩
    · intro hc
      obtain ⟨x, hx, hxeq⟩ := List.mem_map.mp hc
      by_cases hxo : x = o
      · rw [if_pos hxo] at hxeq
        exact hne hxeq.symm
      · rw [if_neg hxo] at hxeq
        exact hxo hxeq
  have hdrw : rename_drawing_file fs o n =
      (fs.erase n).map (fun f => if f = o then n else f) := by
    unfold rename_drawing_file
    rw [if_neg hne, if_pos hn]
    show (match fsRename (fs.erase n) o n with
      | some fs2 => fs2
      | none => fs.erase n) = _
    rw [hren]
  have hdxf : rename_dxf_file fs o n =
      (fs.erase n).map (fun f => if f = o then n else f) := by
    unfold rename_dxf_file
    rw [if_neg hne, if_pos hn]
    show (match fsRename (fs.erase n) o n with
      | some fs2 => fs2
      | none => fs.erase n) = _
    rw [hren]
  refine ⟨?_, ?_, ?_⟩
  · rw [hdrw]
    exact hmain _ rfl
  · rw [hdxf]
    exact hmain _ rfl
  · unfold rename_part_file fsRename
    rw [if_pos hn]

/-- Witness for the amended C9 at a concrete two-file system. -/
theorem rename_collision_amended_witness :
    (("б.cdw".toList) ∈ rename_drawing_file
        [("а.cdw".toList), ("б.cdw".toList)] ("а.cdw".toList) ("б.cdw".toList) ∧
      ("а.cdw".toList) ∉ rename_drawing_file
        [("а.cdw".toList), ("б.cdw".toList)] ("а.cdw".toList) ("б.cdw".toList)) ∧
    (("б.cdw".toList) ∈ rename_dxf_file
        [("а.cdw".toList), ("б.cdw".toList)] ("а.cdw".toList) ("б.cdw".toList) ∧
      ("а.cdw".toList) ∉ rename_dxf_file
        [("а.cdw".toList), ("б.cdw".toList)] ("а.cdw".toList) ("б.cdw".toList)) ∧
    rename_part_file [("а.cdw".toList), ("б.cdw".toList)]
        ("а.cdw".toList) ("б.cdw".toList) =
      [("а.cdw".toList), ("б.cdw".toList)] :=
  rename_collision_amended [("а.cdw".toList), ("б.cdw".toList)]
    ("а.cdw".toList) ("б.cdw".toList) (by decide) (by decide) (by decide)
    (by decide)

/-!
## Project-prefix inference (claim C10)
-/

/-- C10: project-prefix inference.  A truthy (non-empty) explicitly
supplied project type always wins; otherwise the prefix is ZVD.TURBO
when the upper-cased folder name contains TURBO, ZVD.LITE when it
contains LITE, and ZVD.LITE by default. -/
theorem project_prefix_inference :
    (∀ t folder : Str, t.isEmpty = false →
      project_prefix (some t) folder = t) ∧
    (∀ folder : Str,
      containsSub (pyUpper folder) ("TURBO".toList) = true →
      project_prefix none folder = ("ZVD.TURBO".toList)) ∧
    (∀ folder : Str,
      containsSub (pyUpper folder) ("TURBO".toList) = false →
      containsSub (pyUpper folder) ("LITE".toList) = true →
      project_prefix none folder = ("ZVD.LITE".toList)) ∧
    (∀ folder : Str,
      containsSub (pyUpper folder) ("TURBO".toList) = false →
      containsSub (pyUpper folder) ("LITE".toList) = false →
      project_prefix none folder = ("ZVD.LITE".toList)) := by
  refine ⟨?_, ?_, ?_, ?_⟩
  · intro t folder ht
    show (if t.isEmpty = true then _ else t) = t
    rw [if_neg (by rw [ht]; exact Bool.false_ne_true)]
  · intro folder h
    show (if containsSub (pyUpper folder) ("TURBO".toList) = true
        then ("ZVD.TURBO".toList)
        else if containsSub (pyUpper folder) ("LITE".toList) = true
        then ("ZVD.LITE".toList) else ("ZVD.LITE".toList)) = _
    rw [if_pos h]
  · intro folder h1 h2
    show (if containsSub (pyUpper folder) ("TURBO".toList) = true
        then ("ZVD.TURBO".toList)
        else if containsSub (pyUpper folder) ("LITE".toList) = true
        then ("ZVD.LITE".toList) else ("ZVD.LITE".toList)) = _
    rw [if_neg (by rw [h1]; exact Bool.false_ne_true), if_pos h2]
  · intro folder h1 h2
    show (if containsSub (pyUpper folder) ("TURBO".toList) = true
        then ("ZVD.TURBO".toList)
        else if containsSub (pyUpper folder) ("LITE".toList) = true
        then ("ZVD.LITE".toList) else ("ZVD.LITE".toList)) = _
    rw [if_neg (by rw [h1]; exact Bool.false_ne_true),
      if_neg (by rw [h2]; exact Bool.false_ne_true)]

/-- Witness for C10: a folder name containing `turbo` (in lowercase)
infers the ZVD.TURBO prefix. -/
theorem project_prefix_inference_witness :
    project_prefix none ("zvd turbo проект".toList) = ("ZVD.TURBO".toList) :=
  project_prefix_inference.2.1 ("zvd turbo проект".toList) (by decide)
